import Mathlib

/-!
Shallow embedding of the terrapin content-attestation engine.

The library (`terrapin/src/lib.rs`) is a chunking/hashing accumulator
(`Terrapin`), plus a one-shot chunk generator (`generate_for_reader`).
The CLI (`terrapin-cli/src/main.rs`) builds multi-level attestations
(`Attest`) and verifies ranges (`validate`, shared by `Validate` and `Cat`).

Bytes are modelled as `Nat`, byte sequences as `List Nat`.  The block
hasher (`GitOid::<Sha256, Blob>::id_bytes`) is an external primitive and is
modelled as an arbitrary function `hash : List Nat → List Nat`; the spec
only relies on determinism and on its output being 32 bytes, which enters
theorems as an explicit hypothesis.  `Read::read` over a file is modelled
as always returning `min capacity remaining` bytes (the sequential-file
read model); `u64` subtraction is modelled by truncated `Nat` subtraction.
Rust panics (`expect`, slice index out of range, explicit `panic!` calls)
are modelled as an abort outcome (`Option.none` / `VOutcome.panicd`),
distinct from ordinary returned values.
-/

/-- `BUFFER_CAPACITY` from `terrapin/src/lib.rs`: 2 MiB block size. -/
def BUFFER_CAPACITY : Nat := 1024 * 1024 * 2

/-- The `Terrapin` accumulator struct from `terrapin/src/lib.rs`. -/
structure Terrapin where
  attestations : List Nat
  buffer : List Nat
  finalized : Bool
deriving DecidableEq

/-- `Terrapin::new`. -/
def Terrapin.new : Terrapin :=
  { attestations := [], buffer := [], finalized := false }

/-- The two error values `Terrapin::add` can produce
(`FinalizedError`, `BufferOverflowError`). -/
inductive AddErr where
  | finalizedErr
  | bufferOverflow
deriving DecidableEq

/-- `Terrapin::update_hash_buffer`: hash the pending buffer (if non-empty),
append the digest to `attestations`, clear the buffer. -/
def Terrapin.update_hash_buffer (hash : List Nat → List Nat) (t : Terrapin) :
    Terrapin :=
  if t.buffer.length = 0 then t
  else { t with attestations := t.attestations ++ hash t.buffer, buffer := [] }

/-- `update_hash_buffer` always leaves an empty pending buffer. -/
lemma Terrapin.update_hash_buffer_len (hash : List Nat → List Nat)
    (t : Terrapin) : (Terrapin.update_hash_buffer hash t).buffer.length = 0 := by
  unfold Terrapin.update_hash_buffer
  split
  next h => exact h
  next h => simp

/-- The `while copied < data.len()` loop of `Terrapin::add`, with the
remaining (uncopied) input as the recursion argument.  Each iteration copies
`to_copy = min remaining (BUFFER_CAPACITY - buffer.len())` bytes, then hashes
and clears the buffer if it reached `BUFFER_CAPACITY`; the `else if` overflow
branch of the source is kept verbatim.  The mutated `self` is returned
together with the optional error. -/
def Terrapin.addLoop (hash : List Nat → List Nat) (t : Terrapin)
    (data : List Nat) : Terrapin × Option AddErr :=
  if hd : data.length = 0 then (t, none)
  else
    let to_copy := min data.length (BUFFER_CAPACITY - t.buffer.length)
    let t1 := { t with buffer := t.buffer ++ data.take to_copy }
    if hfull : BUFFER_CAPACITY ≤ t1.buffer.length then
      Terrapin.addLoop hash (Terrapin.update_hash_buffer hash t1)
        (data.drop to_copy)
    else if BUFFER_CAPACITY < t1.buffer.length then
      (t1, some AddErr.bufferOverflow)
    else
      Terrapin.addLoop hash t1 (data.drop to_copy)
termination_by 2 * data.length + (if BUFFER_CAPACITY ≤ t.buffer.length then 1 else 0)
decreasing_by
  · simp only [Terrapin.update_hash_buffer_len, List.length_drop]
    have hno : ¬ (BUFFER_CAPACITY ≤ (0:Nat)) := by decide
    rw [if_neg hno]
    by_cases hb : BUFFER_CAPACITY ≤ t.buffer.length
    · rw [if_pos hb]
      omega
    · rw [if_neg hb]
      omega
  · rw [if_neg hfull]
    simp only [List.length_append, List.length_take] at hfull
    simp only [List.length_drop]
    by_cases hb : BUFFER_CAPACITY ≤ t.buffer.length
    · rw [if_pos hb]
      omega
    · rw [if_neg hb]
      omega

/-- `Terrapin::add`: reject if finalized, otherwise run the copy loop. -/
def Terrapin.add (hash : List Nat → List Nat) (t : Terrapin)
    (data : List Nat) : Terrapin × Option AddErr :=
  if t.finalized then (t, some AddErr.finalizedErr)
  else Terrapin.addLoop hash t data

/-- `Terrapin::finalize`: on the first call hash the pending remainder and
set the flag; afterwards return the cached sequence.  Returns the produced
attestation together with the post-state of `self`. -/
def Terrapin.finalize (hash : List Nat → List Nat) (t : Terrapin) :
    List Nat × Terrapin :=
  if t.finalized then (t.attestations, t)
  else
    let t1 := { Terrapin.update_hash_buffer hash t with finalized := true }
    (t1.attestations, t1)

/-- `InvalidChunkSizeError` from `generate_for_reader`. -/
inductive GenErr where
  | invalidChunkSize
deriving DecidableEq

/-- The `ChunkReader` iterator: repeatedly read `min c remaining` bytes until
the source is exhausted (a read of 0 bytes ends the iteration).  The final
chunk may be short; for `c = 0` every read returns 0 bytes, so the list is
empty. -/
def chunksOf (c : Nat) (l : List Nat) : List (List Nat) :=
  if h : 0 < c ∧ 0 < l.length then l.take c :: chunksOf c (l.drop c) else []
termination_by l.length
decreasing_by
  simp only [List.length_drop]
  omega

/-- `new_writer`: hash every chunk (spawned tasks), then `join_all` the
handles — `futures::future::join_all` yields results in spawn order, and the
channel is drained in send order, so the digests appear in read order
independently of task completion order. -/
def new_writer (hash : List Nat → List Nat) (c : Nat) (data : List Nat) :
    List (List Nat) :=
  List.map hash (chunksOf c data)

/-- `generate_for_reader`: reject chunk size 0, otherwise concatenate the
per-chunk digests produced by `new_writer` in read order. -/
def generate_for_reader (hash : List Nat → List Nat) (c : Nat)
    (data : List Nat) : Except GenErr (List Nat) :=
  if c = 0 then Except.error GenErr.invalidChunkSize
  else Except.ok (List.flatten (new_writer hash c data))

/-- The `Attest` loop of `terrapin-cli/src/main.rs`: repeatedly run
`generate_for_reader` with chunk size `BUFFER_CAPACITY` over the current
bytes, collecting every produced level, until a level is exactly 32 bytes;
the collected levels are reversed (root first) at the end.  The Rust loop
has no other exit, so it is modelled with fuel: `none` means the loop has
not terminated within `fuel` rounds. -/
def attestLoop (hash : List Nat → List Nat) (fuel : Nat) (cur : List Nat)
    (acc : List (List Nat)) : Option (List (List Nat)) :=
  match fuel with
  | 0 => none
  | f + 1 =>
    match generate_for_reader hash BUFFER_CAPACITY cur with
    | Except.error _ => none
    | Except.ok att =>
      if att.length = 32 then some (List.reverse (acc ++ [att]))
      else attestLoop hash f att (acc ++ [att])

/-- `aligned_start` in `validate`: `start - start % BUFFER_CAPACITY`,
defaulting to 0 when `--start` is omitted. -/
def alignedStartOf (startOpt : Option Nat) : Nat :=
  match startOpt with
  | some s => s - s % BUFFER_CAPACITY
  | none => 0

/-- `aligned_end` in `validate`:
`min ((end + BUFFER_CAPACITY) - end % BUFFER_CAPACITY) file_size`,
defaulting to `file_size` when `--end` is omitted. -/
def alignedEndOf (endOpt : Option Nat) (file_size : Nat) : Nat :=
  match endOpt with
  | some e => min ((e + BUFFER_CAPACITY) - e % BUFFER_CAPACITY) file_size
  | none => file_size

/-- `start_byte` in the passthrough branch of `validate`:
`start % BUFFER_CAPACITY` for every block, 0 when `--start` is omitted. -/
def startByteOf (startOpt : Option Nat) : Nat :=
  match startOpt with
  | some s => s % BUFFER_CAPACITY
  | none => 0

/-- Outcome of `validate`: the success message, the mismatch message, or a
process abort (`panic!`, `expect`, or a slice index out of range). -/
inductive VOutcome where
  | ok
  | mismatch
  | panicd
deriving DecidableEq

/-- The read loop of `validate`.  `rem` is the part of the file after the
seek position not yet read; `total` is the byte count read so far.  Each
round: read `n = min BUFFER_CAPACITY rem.length` bytes (a read of 0 breaks
the loop); panic if `total > aligned_end`; feed the block to the
accumulator (`expect` panics on error); in passthrough mode write
`buffer[start_byte..n]` to the sink (a slice with `start_byte > n`
panics); stop once `total = aligned_end - aligned_start`.  Returns the
accumulator and the bytes written, or `none` on panic. -/
def readLoop (hash : List Nat → List Nat) (t : Terrapin) (rem : List Nat)
    (total alignedEnd alignedStart : Nat) (startOpt : Option Nat)
    (hasWriter : Bool) (out : List Nat) : Option (Terrapin × List Nat) :=
  let n := min BUFFER_CAPACITY rem.length
  if hn : n = 0 then some (t, out)
  else if alignedEnd < total then none
  else
    match Terrapin.add hash t (rem.take n) with
    | (_, some _) => none
    | (t1, none) =>
      if hasWriter ∧ n < startByteOf startOpt then none
      else
        let out1 := if hasWriter then out ++ (rem.take n).drop (startByteOf startOpt) else out
        if total + n = alignedEnd - alignedStart then some (t1, out1)
        else readLoop hash t1 (rem.drop n) (total + n) alignedEnd alignedStart
          startOpt hasWriter out1
termination_by rem.length
decreasing_by
  simp only [List.length_drop]
  omega

/-- `validate` from `terrapin-cli/src/main.rs`, shared by the `Validate`
(no writer) and `Cat` (writer) subcommands.  Computes the aligned range,
seeks to `aligned_start`, runs the read loop, finalizes the accumulator,
slices the persisted attestation at
`[(aligned_start/B)*32, (aligned_end/B)*32)` — with the slice end bumped to
32 when it is 0 — and compares.  A slice whose end exceeds the attestation
length (or whose start exceeds its end) is a Rust panic.  Returns the
verdict together with the bytes written to the sink. -/
def validateRun (hash : List Nat → List Nat) (data atts : List Nat)
    (startOpt endOpt : Option Nat) (hasWriter : Bool) : VOutcome × List Nat :=
  let aligned_start := alignedStartOf startOpt
  let file_size := data.length
  let aligned_end := alignedEndOf endOpt file_size
  match readLoop hash Terrapin.new (data.drop aligned_start) 0 aligned_end
      aligned_start startOpt hasWriter [] with
  | none => (VOutcome.panicd, [])
  | some (t, out) =>
    let computed := (Terrapin.finalize hash t).1
    let first_block := (aligned_start / BUFFER_CAPACITY) * 32
    let last_block0 := (aligned_end / BUFFER_CAPACITY) * 32
    let last_block := if last_block0 = 0 then 32 else last_block0
    if first_block ≤ last_block ∧ last_block ≤ atts.length then
      let att_slice := (atts.drop first_block).take (last_block - first_block)
      if computed = att_slice then (VOutcome.ok, out)
      else (VOutcome.mismatch, out)
    else (VOutcome.panicd, out)

/-- Modelled from the spec: `roundUpToMultipleOf(B, end)` as used by the
spec sentence defining `aligned_end` — the smallest multiple of `b` that is
`≥ x`. -/
def roundUpToMultipleOf (b x : Nat) : Nat := ((x + b - 1) / b) * b

/-- Modelled from the spec: the spec formula
`aligned_end = min(L, roundUpToMultipleOf(B, end))`, with omitted `end`
meaning `L`. -/
def alignedEndSpec (endOpt : Option Nat) (L : Nat) : Nat :=
  match endOpt with
  | some e => min L (roundUpToMultipleOf BUFFER_CAPACITY e)
  | none => L

/-- The maximal-length full chunks of size `c` of a list (the blocks the
accumulator hashes eagerly); the sub-`c` remainder is not included. -/
def fullChunks (c : Nat) (l : List Nat) : List (List Nat) :=
  if h : 0 < c ∧ c ≤ l.length then l.take c :: fullChunks c (l.drop c) else []
termination_by l.length
decreasing_by
  simp only [List.length_drop]
  omega

/-- The sub-`c` remainder after all full chunks of size `c`. -/
def leftover (c : Nat) (l : List Nat) : List Nat :=
  l.drop (c * (l.length / c))

/-- The leaf digest sequence of a byte stream: one digest per full
`BUFFER_CAPACITY` block, plus one digest for a non-empty final short
block. -/
def leafDigests (hash : List Nat → List Nat) (l : List Nat) : List Nat :=
  List.flatten (List.map hash (fullChunks BUFFER_CAPACITY l)) ++
    (if l.length % BUFFER_CAPACITY = 0 then []
     else hash (leftover BUFFER_CAPACITY l))

/-- Feed a whole byte stream into a fresh accumulator and finalize:
the `Attestor` generation path. -/
def terrapinRun (hash : List Nat → List Nat) (data : List Nat) : List Nat :=
  (Terrapin.finalize hash (Terrapin.add hash Terrapin.new data).1).1

/-- Feed a sequence of `add` calls into an accumulator. -/
def feedAll (hash : List Nat → List Nat) (t : Terrapin)
    (ds : List (List Nat)) : Terrapin :=
  ds.foldl (fun s d => (Terrapin.add hash s d).1) t

/-- A concrete stand-in block hasher used for closed evaluations: every
input hashes to 32 zero bytes. -/
def constHash32 (l : List Nat) : List Nat := List.replicate 32 0

/-! ### Chunking lemmas -/

lemma BUFFER_CAPACITY_pos : 0 < BUFFER_CAPACITY := by decide

lemma fullChunks_eq_nil (c : Nat) (l : List Nat) (h : l.length < c) :
    fullChunks c l = [] := by
  rw [fullChunks]
  rw [dif_neg]
  omega

lemma fullChunks_cons (c : Nat) (l : List Nat) (hc : 0 < c)
    (h : c ≤ l.length) : fullChunks c l = l.take c :: fullChunks c (l.drop c) := by
  rw [fullChunks]
  rw [dif_pos ⟨hc, h⟩]

lemma leftover_of_lt (c : Nat) (l : List Nat) (h : l.length < c) :
    leftover c l = l := by
  unfold leftover
  rw [Nat.div_eq_of_lt h, Nat.mul_zero, List.drop_zero]

lemma leftover_drop (c : Nat) (l : List Nat) (hc : 0 < c) (h : c ≤ l.length) :
    leftover c l = leftover c (l.drop c) := by
  unfold leftover
  rw [List.drop_drop, List.length_drop]
  rw [Nat.div_eq_sub_div hc h, Nat.mul_add, Nat.mul_one, Nat.add_comm]

lemma leftover_length (c : Nat) (l : List Nat) (hc : 0 < c) :
    (leftover c l).length = l.length % c := by
  unfold leftover
  rw [List.length_drop]
  have h := Nat.div_add_mod l.length c
  have h2 := Nat.mod_lt l.length hc
  omega

lemma leftover_eq_nil_iff (c : Nat) (l : List Nat) (hc : 0 < c) :
    leftover c l = [] ↔ l.length % c = 0 := by
  rw [← List.length_eq_zero, leftover_length c l hc]

lemma fullChunks_length (c : Nat) (hc : 0 < c) :
    ∀ n (l : List Nat), l.length = n → (fullChunks c l).length = l.length / c := by
  intro n
  induction n using Nat.strong_induction_on with
  | _ n ih =>
    intro l hl
    by_cases h : c ≤ l.length
    · rw [fullChunks_cons c l hc h]
      have hdl : (l.drop c).length = l.length - c := List.length_drop c l
      have hlt : (l.drop c).length < n := by omega
      rw [List.length_cons, ih (l.drop c).length hlt (l.drop c) rfl, hdl,
        Nat.div_eq_sub_div hc h]
    · rw [fullChunks_eq_nil c l (by omega), List.length_nil,
        Nat.div_eq_of_lt (by omega)]

/-- Chunk decomposition of an appended stream: the full chunks of `p ++ m`
are the full chunks of `p` followed by the full chunks of `p`'s leftover
glued to `m`, and the leftovers agree. -/
lemma fullChunks_append (c : Nat) (hc : 0 < c) :
    ∀ n (p : List Nat), p.length = n → ∀ m : List Nat,
      fullChunks c (p ++ m) = fullChunks c p ++ fullChunks c (leftover c p ++ m)
      ∧ leftover c (p ++ m) = leftover c (leftover c p ++ m) := by
  intro n
  induction n using Nat.strong_induction_on with
  | _ n ih =>
    intro p hp m
    by_cases h : c ≤ p.length
    · have h1 : c ≤ (p ++ m).length := by
        rw [List.length_append]; omega
      have htake : (p ++ m).take c = p.take c := by
        rw [List.take_append_eq_append_take]
        rw [Nat.sub_eq_zero_of_le h, List.take_zero, List.append_nil]
      have hdrop : (p ++ m).drop c = p.drop c ++ m := by
        rw [List.drop_append_eq_append_drop]
        rw [Nat.sub_eq_zero_of_le h, List.drop_zero]
      have hdl : (p.drop c).length < n := by
        rw [List.length_drop]; omega
      have hihd := ih (p.drop c).length hdl (p.drop c) rfl m
      constructor
      · rw [fullChunks_cons c (p ++ m) hc h1, htake, hdrop,
          fullChunks_cons c p hc h, hihd.1, leftover_drop c p hc h,
          List.cons_append]
      · rw [leftover_drop c (p ++ m) hc h1, hdrop, hihd.2,
          leftover_drop c p hc h]
    · rw [fullChunks_eq_nil c p (by omega), leftover_of_lt c p (by omega),
        List.nil_append]
      exact ⟨rfl, rfl⟩

/-! ### `Terrapin::add` characterization -/

/-- What the copy loop of `add` computes: starting from a state whose
pending buffer is below capacity, it hashes every full block of
`buffer ++ data` in order and retains the final short remainder as the new
buffer.  It never errors. -/
lemma addLoop_spec (hash : List Nat → List Nat) :
    ∀ n (t : Terrapin) (data : List Nat), data.length = n →
      t.buffer.length < BUFFER_CAPACITY →
      Terrapin.addLoop hash t data =
        ({ attestations := t.attestations ++
             (List.map hash (fullChunks BUFFER_CAPACITY (t.buffer ++ data))).flatten,
           buffer := leftover BUFFER_CAPACITY (t.buffer ++ data),
           finalized := t.finalized }, none) := by
  intro n
  induction n using Nat.strong_induction_on with
  | _ n ih =>
    intro t data hlen hbuf
    rw [Terrapin.addLoop]
    by_cases hd : data.length = 0
    · rw [dif_pos hd]
      have hnil : data = [] := List.length_eq_zero.mp hd
      subst hnil
      rw [List.append_nil, fullChunks_eq_nil _ _ hbuf,
        leftover_of_lt _ _ hbuf]
      simp
    · rw [dif_neg hd]
      have htc : (data.take (min data.length (BUFFER_CAPACITY - t.buffer.length))).length
          = min data.length (BUFFER_CAPACITY - t.buffer.length) := by
        rw [List.length_take]
        omega
      by_cases hfull : BUFFER_CAPACITY ≤
          ({ t with buffer := t.buffer ++
             data.take (min data.length (BUFFER_CAPACITY - t.buffer.length)) } : Terrapin).buffer.length
      · rw [dif_pos hfull]
        have hlb : t.buffer.length +
            min data.length (BUFFER_CAPACITY - t.buffer.length) = BUFFER_CAPACITY := by
          have := hfull
          simp only [List.length_append, htc] at this
          omega
        have htc2 : min data.length (BUFFER_CAPACITY - t.buffer.length)
            = BUFFER_CAPACITY - t.buffer.length := by omega
        have htcpos : 0 < min data.length (BUFFER_CAPACITY - t.buffer.length) := by
          omega
        set tc := min data.length (BUFFER_CAPACITY - t.buffer.length) with htcdef
        have hupd : Terrapin.update_hash_buffer hash
            { t with buffer := t.buffer ++ data.take tc } =
            { attestations := t.attestations ++ hash (t.buffer ++ data.take tc),
              buffer := [], finalized := t.finalized } := by
          unfold Terrapin.update_hash_buffer
          rw [if_neg]
          simp only [List.length_append, htc]
          omega
        rw [hupd]
        have hdlt : (data.drop tc).length < n := by
          rw [List.length_drop]; omega
        rw [ih (data.drop tc).length hdlt _ _ rfl (by simp [BUFFER_CAPACITY_pos])]
        have hcle : BUFFER_CAPACITY ≤ (t.buffer ++ data).length := by
          rw [List.length_append]; omega
        have htake : (t.buffer ++ data).take BUFFER_CAPACITY
            = t.buffer ++ data.take tc := by
          rw [List.take_append_eq_append_take,
            List.take_of_length_le (by omega), htc2]
        have hdrop : (t.buffer ++ data).drop BUFFER_CAPACITY = data.drop tc := by
          rw [List.drop_append_eq_append_drop,
            List.drop_eq_nil_of_le (by omega), List.nil_append, htc2]
        rw [fullChunks_cons BUFFER_CAPACITY (t.buffer ++ data)
          BUFFER_CAPACITY_pos hcle, htake, hdrop,
          leftover_drop BUFFER_CAPACITY (t.buffer ++ data)
            BUFFER_CAPACITY_pos hcle, hdrop]
        simp [List.append_assoc]
      · rw [dif_neg hfull]
        have hlb : t.buffer.length +
            min data.length (BUFFER_CAPACITY - t.buffer.length) < BUFFER_CAPACITY := by
          have := hfull
          simp only [List.length_append, htc] at this
          omega
        have htc3 : min data.length (BUFFER_CAPACITY - t.buffer.length)
            = data.length := by omega
        rw [if_neg (by simp only [List.length_append, htc]; omega)]
        set tc := min data.length (BUFFER_CAPACITY - t.buffer.length) with htcdef
        have hdnil : data.drop tc = [] := by
          rw [htc3]
          exact List.drop_length data
        have hdlt : (data.drop tc).length < n := by
          rw [hdnil]
          simp only [List.length_nil]
          omega
        rw [ih (data.drop tc).length hdlt _ _ rfl
          (by simp only [List.length_append, htc]; omega)]
        rw [hdnil, List.append_nil, htc3, List.take_length]

/-- `add` on an unfinalized, below-capacity state: block digests of
`buffer ++ data` are appended in order and the short remainder is kept. -/
lemma add_spec (hash : List Nat → List Nat) (t : Terrapin) (data : List Nat)
    (hfin : t.finalized = false) (hbuf : t.buffer.length < BUFFER_CAPACITY) :
    Terrapin.add hash t data =
      ({ attestations := t.attestations ++
           (List.map hash (fullChunks BUFFER_CAPACITY (t.buffer ++ data))).flatten,
         buffer := leftover BUFFER_CAPACITY (t.buffer ++ data),
         finalized := false }, none) := by
  have h1 := addLoop_spec hash data.length t data rfl hbuf
  unfold Terrapin.add
  rw [hfin] at h1 ⊢
  simp only [Bool.false_eq_true, if_false]
  exact h1

/-- `add` into a fresh accumulator. -/
lemma add_new (hash : List Nat → List Nat) (data : List Nat) :
    Terrapin.add hash Terrapin.new data =
      ({ attestations := (List.map hash (fullChunks BUFFER_CAPACITY data)).flatten,
         buffer := leftover BUFFER_CAPACITY data, finalized := false }, none) := by
  rw [add_spec hash Terrapin.new data rfl (by decide)]
  simp [Terrapin.new]

/-- With 32-byte digests, the concatenation of the digests of `cs` has
length `32 * cs.length`. -/
lemma flatten_map_length (hash : List Nat → List Nat)
    (h32 : ∀ bs, (hash bs).length = 32) (cs : List (List Nat)) :
    (List.map hash cs).flatten.length = 32 * cs.length := by
  induction cs with
  | nil => simp
  | cons c rest ih =>
    rw [List.map_cons, List.flatten_cons, List.length_append, h32 c, ih,
      List.length_cons]
    omega

/-- `finalize` on an unfinalized state. -/
lemma finalize_unfinalized (hash : List Nat → List Nat) (t : Terrapin)
    (hfin : t.finalized = false) :
    Terrapin.finalize hash t =
      ((Terrapin.update_hash_buffer hash t).attestations,
       { Terrapin.update_hash_buffer hash t with finalized := true }) := by
  unfold Terrapin.finalize
  rw [hfin]
  simp

/-- The `Attestor` path computes exactly the leaf digest sequence. -/
lemma terrapinRun_eq (hash : List Nat → List Nat) (data : List Nat) :
    terrapinRun hash data = leafDigests hash data := by
  unfold terrapinRun leafDigests
  rw [add_new, finalize_unfinalized hash _ rfl]
  unfold Terrapin.update_hash_buffer
  by_cases h : data.length % BUFFER_CAPACITY = 0
  · have h0 : (leftover BUFFER_CAPACITY data).length = 0 := by
      rw [leftover_length _ _ BUFFER_CAPACITY_pos, h]
    simp only [h0, if_pos, if_true, h, List.append_nil]
  · have h0 : ¬ (leftover BUFFER_CAPACITY data).length = 0 := by
      rw [leftover_length _ _ BUFFER_CAPACITY_pos]
      exact h
    simp only [h0, if_neg, if_false, h]

/-- Feeding a list of `add` calls starting from the state reached after
absorbing `p` yields the state reached after absorbing `p ++ ds.flatten`:
chunk boundaries do not depend on how the stream is split across calls. -/
lemma feedAll_spec (hash : List Nat → List Nat) :
    ∀ (ds : List (List Nat)) (p : List Nat),
      feedAll hash
        { attestations := (List.map hash (fullChunks BUFFER_CAPACITY p)).flatten,
          buffer := leftover BUFFER_CAPACITY p, finalized := false } ds =
        { attestations :=
            (List.map hash (fullChunks BUFFER_CAPACITY (p ++ ds.flatten))).flatten,
          buffer := leftover BUFFER_CAPACITY (p ++ ds.flatten),
          finalized := false } := by
  intro ds
  induction ds with
  | nil =>
    intro p
    simp [feedAll]
  | cons d rest ih =>
    intro p
    unfold feedAll
    rw [List.foldl_cons]
    have hblt : (leftover BUFFER_CAPACITY p).length < BUFFER_CAPACITY := by
      rw [leftover_length _ _ BUFFER_CAPACITY_pos]
      exact Nat.mod_lt _ BUFFER_CAPACITY_pos
    have hstep := add_spec hash
      { attestations := (List.map hash (fullChunks BUFFER_CAPACITY p)).flatten,
        buffer := leftover BUFFER_CAPACITY p, finalized := false } d rfl hblt
    simp only [hstep]
    have hcomp := fullChunks_append BUFFER_CAPACITY BUFFER_CAPACITY_pos
      p.length p rfl d
    have hatts : (List.map hash (fullChunks BUFFER_CAPACITY p)).flatten ++
        (List.map hash (fullChunks BUFFER_CAPACITY
          (leftover BUFFER_CAPACITY p ++ d))).flatten =
        (List.map hash (fullChunks BUFFER_CAPACITY (p ++ d))).flatten := by
      rw [hcomp.1, List.map_append, List.flatten_append]
    have hbf : leftover BUFFER_CAPACITY (leftover BUFFER_CAPACITY p ++ d) =
        leftover BUFFER_CAPACITY (p ++ d) := (hcomp.2).symm
    rw [hatts, hbf]
    have hrest := ih (p ++ d)
    unfold feedAll at hrest
    rw [hrest, List.flatten_cons, ← List.append_assoc]

/-- Feeding a list of `add` calls into a fresh accumulator. -/
lemma feedAll_new (hash : List Nat → List Nat) (ds : List (List Nat)) :
    feedAll hash Terrapin.new ds =
      { attestations :=
          (List.map hash (fullChunks BUFFER_CAPACITY ds.flatten)).flatten,
        buffer := leftover BUFFER_CAPACITY ds.flatten, finalized := false } := by
  have h := feedAll_spec hash ds []
  rw [fullChunks_eq_nil BUFFER_CAPACITY [] (by decide),
    leftover_of_lt BUFFER_CAPACITY [] (by decide), List.nil_append] at h
  simpa [Terrapin.new] using h

/-- Length of the leaf digest sequence: `ceil(L / B) * 32`. -/
lemma leafDigests_length (hash : List Nat → List Nat)
    (h32 : ∀ bs, (hash bs).length = 32) (l : List Nat) :
    (leafDigests hash l).length =
      ((l.length + BUFFER_CAPACITY - 1) / BUFFER_CAPACITY) * 32 := by
  unfold leafDigests
  rw [List.length_append, flatten_map_length hash h32,
    fullChunks_length BUFFER_CAPACITY BUFFER_CAPACITY_pos l.length l rfl]
  by_cases h : l.length % BUFFER_CAPACITY = 0
  · rw [if_pos h]
    simp only [List.length_nil]
    unfold BUFFER_CAPACITY at h ⊢
    omega
  · rw [if_neg h, h32]
    unfold BUFFER_CAPACITY at h ⊢
    omega

/-- `add` of an empty slice leaves the state unchanged. -/
lemma add_nil (hash : List Nat → List Nat) (t : Terrapin)
    (hfin : t.finalized = false) : Terrapin.add hash t [] = (t, none) := by
  unfold Terrapin.add
  rw [hfin]
  simp only [Bool.false_eq_true, if_false]
  rw [Terrapin.addLoop]
  simp

/-- Two consecutive `add` calls absorb the concatenation of their inputs. -/
lemma add_add (hash : List Nat → List Nat) (t : Terrapin) (a b : List Nat)
    (hfin : t.finalized = false) (hbuf : t.buffer.length < BUFFER_CAPACITY) :
    (Terrapin.add hash (Terrapin.add hash t a).1 b).1 =
      (Terrapin.add hash t (a ++ b)).1 := by
  rw [add_spec hash t a hfin hbuf]
  have hblt : (leftover BUFFER_CAPACITY (t.buffer ++ a)).length
      < BUFFER_CAPACITY := by
    rw [leftover_length _ _ BUFFER_CAPACITY_pos]
    exact Nat.mod_lt _ BUFFER_CAPACITY_pos
  rw [add_spec hash _ b rfl hblt, add_spec hash t (a ++ b) hfin hbuf]
  have hcomp := fullChunks_append BUFFER_CAPACITY BUFFER_CAPACITY_pos
    (t.buffer ++ a).length (t.buffer ++ a) rfl b
  rw [← List.append_assoc, hcomp.1, hcomp.2, List.map_append,
    List.flatten_append, List.append_assoc]

/-- The `validate` read loop without a writer, in the exact-budget case
(`total + rem.length = aligned_end - aligned_start`): it feeds every
remaining byte to the accumulator block by block and stops without
panicking. -/
lemma readLoop_exact (hash : List Nat → List Nat) :
    ∀ n (rem : List Nat) (t : Terrapin) (total aE aS : Nat)
      (sOpt : Option Nat) (out : List Nat), rem.length = n →
      t.finalized = false → t.buffer.length < BUFFER_CAPACITY →
      total + rem.length = aE - aS →
      readLoop hash t rem total aE aS sOpt false out =
        some ((Terrapin.add hash t rem).1, out) := by
  intro n
  induction n using Nat.strong_induction_on with
  | _ n ih =>
    intro rem t total aE aS sOpt out hlen hfin hbuf htot
    have hB := BUFFER_CAPACITY_pos
    rw [readLoop]
    by_cases hn : min BUFFER_CAPACITY rem.length = 0
    · rw [dif_pos hn]
      have hrem : rem = [] := List.length_eq_zero.mp (by omega)
      rw [hrem, add_nil hash t hfin]
    · rw [dif_neg hn]
      have hlt : ¬ (aE < total) := by omega
      rw [if_neg hlt]
      rw [add_spec hash t (rem.take (min BUFFER_CAPACITY rem.length)) hfin hbuf]
      simp only [Bool.false_eq_true, false_and, if_false, if_neg]
      by_cases hbreak : total + min BUFFER_CAPACITY rem.length = aE - aS
      · rw [if_pos hbreak]
        have hall : min BUFFER_CAPACITY rem.length = rem.length := by omega
        rw [hall, List.take_length,
          add_spec hash t rem hfin hbuf]
      · rw [if_neg hbreak]
        have h1 : 1 ≤ min BUFFER_CAPACITY rem.length := by omega
        have hdlt : (rem.drop (min BUFFER_CAPACITY rem.length)).length < n := by
          rw [List.length_drop]
          omega
        have hblt : (leftover BUFFER_CAPACITY
            (t.buffer ++ rem.take (min BUFFER_CAPACITY rem.length))).length
            < BUFFER_CAPACITY := by
          rw [leftover_length _ _ BUFFER_CAPACITY_pos]
          exact Nat.mod_lt _ BUFFER_CAPACITY_pos
        rw [ih _ hdlt _ _ _ _ _ _ _ rfl rfl hblt
          (by rw [List.length_drop]; omega)]
        have key := add_add hash t (rem.take (min BUFFER_CAPACITY rem.length))
          (rem.drop (min BUFFER_CAPACITY rem.length)) hfin hbuf
        rw [List.take_append_drop] at key
        rw [add_spec hash t (rem.take (min BUFFER_CAPACITY rem.length)) hfin hbuf]
          at key
        exact congrArg (fun z => some (z, out)) key

/-- `validate` with no `--start`/`--end` and no writer: the whole file is
fed to the accumulator, and the computed leaf digests are compared against
`atts.take last_block` where `last_block = (L / B) * 32`, bumped to 32 when
it is 0; a `last_block` beyond the attestation length panics. -/
lemma validateRun_none_none (hash : List Nat → List Nat) (data atts : List Nat) :
    validateRun hash data atts none none false =
      (if (if (data.length / BUFFER_CAPACITY) * 32 = 0 then 32
           else (data.length / BUFFER_CAPACITY) * 32) ≤ atts.length then
         (if leafDigests hash data =
             atts.take (if (data.length / BUFFER_CAPACITY) * 32 = 0 then 32
                        else (data.length / BUFFER_CAPACITY) * 32)
          then VOutcome.ok else VOutcome.mismatch)
       else VOutcome.panicd, []) := by
  unfold validateRun
  simp only [alignedStartOf, alignedEndOf, List.drop_zero]
  rw [readLoop_exact hash data.length data Terrapin.new 0 data.length 0 none []
    rfl rfl (by decide) (by omega)]
  dsimp only
  rw [show (Terrapin.finalize hash (Terrapin.add hash Terrapin.new data).1).1
    = leafDigests hash data from terrapinRun_eq hash data]
  simp only [Nat.zero_div, Nat.zero_mul, Nat.zero_le, true_and, List.drop_zero,
    Nat.sub_zero]
  split_ifs <;> rfl

/-- Whole-range `validate` against an attestation shorter than the required
slice aborts with a slice-index panic. -/
lemma validateRun_short_atts (hash : List Nat → List Nat) (data atts : List Nat)
    (hshort : atts.length < 32 ∨
      atts.length < (data.length / BUFFER_CAPACITY) * 32) :
    validateRun hash data atts none none false = (VOutcome.panicd, []) := by
  rw [validateRun_none_none]
  have hcond : ¬ ((if (data.length / BUFFER_CAPACITY) * 32 = 0 then 32
      else (data.length / BUFFER_CAPACITY) * 32) ≤ atts.length) := by
    by_cases h : (data.length / BUFFER_CAPACITY) * 32 = 0
    · rw [if_pos h]
      omega
    · rw [if_neg h]
      omega
  rw [if_neg hcond]

/-- Claim C1 (code_bug): verifying the whole range of a stream against the
leaf attestation generated from that same stream does NOT succeed for a
5,000,000-byte input: `validate` slices the persisted attestation up to
`(aligned_end / B) * 32 = 64` bytes (rounding the block count down), while
the freshly computed sequence has `ceil(L / B) * 32 = 96` bytes, so the
comparison fails and the code reports a mismatch instead of success. -/
theorem c1_whole_range_self_verification_mismatch
    (hash : List Nat → List Nat) (h32 : ∀ bs, (hash bs).length = 32)
    (data : List Nat) (hL : data.length = 5000000) :
    validateRun hash data (leafDigests hash data) none none false =
      (VOutcome.mismatch, []) := by
  rw [validateRun_none_none]
  have hdiv : data.length / BUFFER_CAPACITY * 32 = 64 := by
    rw [hL]
    decide
  have hlen : (leafDigests hash data).length = 96 := by
    rw [leafDigests_length hash h32, hL]
    decide
  rw [hdiv]
  rw [if_neg (by decide : ¬ ((64:Nat) = 0))]
  rw [if_pos (by rw [hlen]; decide)]
  have hne : ¬ (leafDigests hash data = (leafDigests hash data).take 64) := by
    intro he
    have hc := congrArg List.length he
    rw [List.length_take, hlen] at hc
    omega
  rw [if_neg hne]

/-- Witness for C1: concrete 5,000,000-byte zero-filled input, concrete
32-zero-byte hasher. -/
theorem c1_whole_range_self_verification_mismatch_witness :
    (∀ bs, (constHash32 bs).length = 32) ∧
    (List.replicate 5000000 0).length = 5000000 ∧
    validateRun constHash32 (List.replicate 5000000 0)
      (leafDigests constHash32 (List.replicate 5000000 0)) none none false =
      (VOutcome.mismatch, []) :=
  ⟨fun bs => List.length_replicate 32 0, List.length_replicate 5000000 0,
    c1_whole_range_self_verification_mismatch constHash32
      (fun bs => List.length_replicate 32 0) (List.replicate 5000000 0)
      (List.length_replicate 5000000 0)⟩

/-- Claim C7 (corrected): an attestation too short for the required slice
does not produce a structured `MalformedAttestation` error — the code
panics (Rust slice index out of range), modelled as the `panicd` abort
outcome; and no multiple-of-32 length check exists anywhere in `validate`. -/
theorem c7_short_attestation_panics (hash : List Nat → List Nat)
    (data atts : List Nat)
    (hshort : atts.length < 32 ∨
      atts.length < (data.length / BUFFER_CAPACITY) * 32) :
    validateRun hash data atts none none false = (VOutcome.panicd, []) :=
  validateRun_short_atts hash data atts hshort

/-- Counterexample for C7 as stated: at a concrete too-short attestation the
verifier aborts with a panic; it does not return any structured error
distinct from a digest mismatch. -/
theorem c7_counterexample :
    validateRun constHash32 [1, 2, 3] [0] none none false =
      (VOutcome.panicd, []) :=
  validateRun_short_atts constHash32 [1, 2, 3] [0] (Or.inl (by decide))

/-- Witness for C7's amended theorem at a concrete input. -/
theorem c7_short_attestation_panics_witness :
    (([] : List Nat).length < 32 ∨
      ([] : List Nat).length <
        (([1, 2, 3] : List Nat).length / BUFFER_CAPACITY) * 32) ∧
    validateRun constHash32 [1, 2, 3] [] none none false =
      (VOutcome.panicd, []) :=
  ⟨Or.inl (by decide),
    c7_short_attestation_panics constHash32 [1, 2, 3] [] (Or.inl (by decide))⟩

/-- Counterexample for C2 as stated: with `end = BUFFER_CAPACITY` (already a
multiple of B) and `L = 3 * BUFFER_CAPACITY`, the code computes
`aligned_end = 2 * BUFFER_CAPACITY`, not the spec formula
`min(L, roundUpToMultipleOf(B, end)) = BUFFER_CAPACITY`. -/
theorem c2_counterexample :
    ¬ (alignedEndOf (some BUFFER_CAPACITY) (3 * BUFFER_CAPACITY) =
       alignedEndSpec (some BUFFER_CAPACITY) (3 * BUFFER_CAPACITY)) := by
  decide

/-- Claim C2 (corrected): the code computes
`aligned_end = min((end / B + 1) * B, L)` — the multiple of B strictly
beyond `end / B` blocks — so an `end` that is already a multiple of B is
extended by one extra block, and an explicit `end = 0` yields
`min(B, L)` (one block, not an empty range); an omitted `end` yields `L`. -/
theorem c2_aligned_end_next_multiple (e L : Nat) :
    alignedEndOf (some e) L =
      min ((e / BUFFER_CAPACITY + 1) * BUFFER_CAPACITY) L ∧
    alignedEndOf none L = L := by
  constructor
  · simp only [alignedEndOf]
    have harg : (e + BUFFER_CAPACITY) - e % BUFFER_CAPACITY
        = (e / BUFFER_CAPACITY + 1) * BUFFER_CAPACITY := by
      unfold BUFFER_CAPACITY
      omega
    rw [harg]
  · rfl

/-- Claim C9 (confirmed): a second `finalize` returns the same digest
sequence and leaves the state unchanged. -/
theorem c9_finalize_idempotent (hash : List Nat → List Nat) (t : Terrapin) :
    Terrapin.finalize hash (Terrapin.finalize hash t).2 =
      Terrapin.finalize hash t := by
  by_cases h : t.finalized
  · simp [Terrapin.finalize, h]
  · simp [Terrapin.finalize, h]

/-- The copy loop never takes the overflow branch: its guard
`buffer.len() > BUFFER_CAPACITY` sits in the `else` of
`buffer.len() >= BUFFER_CAPACITY` and is contradictory there. -/
lemma addLoop_no_overflow (hash : List Nat → List Nat) :
    ∀ n (t : Terrapin) (data : List Nat),
      2 * data.length + (if BUFFER_CAPACITY ≤ t.buffer.length then 1 else 0) = n →
      (Terrapin.addLoop hash t data).2 ≠ some AddErr.bufferOverflow := by
  intro n
  induction n using Nat.strong_induction_on with
  | _ n ih =>
    intro t data hm
    rw [Terrapin.addLoop]
    by_cases hd : data.length = 0
    · rw [dif_pos hd]
      simp
    · rw [dif_neg hd]
      by_cases hfull : BUFFER_CAPACITY ≤
          ({ t with buffer := t.buffer ++
             data.take (min data.length (BUFFER_CAPACITY - t.buffer.length)) } :
             Terrapin).buffer.length
      · rw [dif_pos hfull]
        have hlt : 2 * (data.drop
              (min data.length (BUFFER_CAPACITY - t.buffer.length))).length +
            (if BUFFER_CAPACITY ≤ (Terrapin.update_hash_buffer hash
              { t with buffer := t.buffer ++
                data.take (min data.length (BUFFER_CAPACITY - t.buffer.length)) } :
                Terrapin).buffer.length then 1 else 0) < n := by
          rw [Terrapin.update_hash_buffer_len]
          rw [if_neg (by decide : ¬ (BUFFER_CAPACITY ≤ (0:Nat)))]
          simp only [List.length_append, List.length_take] at hfull
          rw [List.length_drop]
          by_cases hb : BUFFER_CAPACITY ≤ t.buffer.length
          · rw [if_pos hb] at hm
            omega
          · rw [if_neg hb] at hm
            omega
        exact ih _ hlt _ _ rfl
      · rw [dif_neg hfull]
        by_cases hov : BUFFER_CAPACITY <
            ({ t with buffer := t.buffer ++
               data.take (min data.length (BUFFER_CAPACITY - t.buffer.length)) } :
               Terrapin).buffer.length
        · exact absurd hov (by omega)
        · rw [if_neg hov]
          have hlt : 2 * (data.drop
                (min data.length (BUFFER_CAPACITY - t.buffer.length))).length +
              (if BUFFER_CAPACITY ≤
                ({ t with buffer := t.buffer ++
                  data.take (min data.length (BUFFER_CAPACITY - t.buffer.length)) } :
                  Terrapin).buffer.length then 1 else 0) < n := by
            rw [if_neg hfull]
            simp only [List.length_append, List.length_take] at hfull
            rw [List.length_drop]
            by_cases hb : BUFFER_CAPACITY ≤ t.buffer.length
            · rw [if_pos hb] at hm
              omega
            · rw [if_neg hb] at hm
              omega
          exact ih _ hlt _ _ rfl

/-- Claim C10 (confirmed): `Terrapin::add` never returns
`BufferOverflowError`: the guarded branch is unreachable. -/
theorem c10_add_never_overflows (hash : List Nat → List Nat) (t : Terrapin)
    (data : List Nat) :
    (Terrapin.add hash t data).2 ≠ some AddErr.bufferOverflow := by
  unfold Terrapin.add
  by_cases h : t.finalized
  · simp [h]
  · simp only [h, Bool.false_eq_true, if_false]
    exact addLoop_no_overflow hash _ t data rfl

/-- Claim C8 (confirmed): after `new`, a completed `add`, or `finalize`,
the pending buffer holds strictly fewer than `BUFFER_CAPACITY` bytes,
provided it did before the call (as it does in every reachable state). -/
theorem c8_buffer_below_capacity (hash : List Nat → List Nat) (t : Terrapin)
    (data : List Nat) (hbuf : t.buffer.length < BUFFER_CAPACITY) :
    Terrapin.new.buffer.length < BUFFER_CAPACITY ∧
    (Terrapin.add hash t data).1.buffer.length < BUFFER_CAPACITY ∧
    (Terrapin.finalize hash t).2.buffer.length < BUFFER_CAPACITY := by
  refine ⟨by decide, ?_, ?_⟩
  · by_cases h : t.finalized
    · unfold Terrapin.add
      rw [if_pos h]
      exact hbuf
    · have h2 : t.finalized = false := by
        cases hb : t.finalized
        · rfl
        · exact absurd hb h
      rw [add_spec hash t data h2 hbuf]
      show (leftover BUFFER_CAPACITY (t.buffer ++ data)).length < BUFFER_CAPACITY
      rw [leftover_length _ _ BUFFER_CAPACITY_pos]
      exact Nat.mod_lt _ BUFFER_CAPACITY_pos
  · by_cases h : t.finalized
    · unfold Terrapin.finalize
      rw [if_pos h]
      exact hbuf
    · have h2 : t.finalized = false := by
        cases hb : t.finalized
        · rfl
        · exact absurd hb h
      rw [finalize_unfinalized hash t h2]
      show (Terrapin.update_hash_buffer hash t).buffer.length < BUFFER_CAPACITY
      rw [Terrapin.update_hash_buffer_len]
      exact BUFFER_CAPACITY_pos

/-- Witness for C8 at a concrete state and input. -/
theorem c8_buffer_below_capacity_witness :
    Terrapin.new.buffer.length < BUFFER_CAPACITY ∧
    (Terrapin.new.buffer.length < BUFFER_CAPACITY ∧
     (Terrapin.add constHash32 Terrapin.new [1, 2, 3]).1.buffer.length
       < BUFFER_CAPACITY ∧
     (Terrapin.finalize constHash32 Terrapin.new).2.buffer.length
       < BUFFER_CAPACITY) :=
  ⟨by decide,
    c8_buffer_below_capacity constHash32 Terrapin.new [1, 2, 3] (by decide)⟩

/-- Finalizing the state reached after absorbing `l` yields the leaf digest
sequence of `l`. -/
lemma finalize_state (hash : List Nat → List Nat) (l : List Nat) :
    (Terrapin.finalize hash
      { attestations := (List.map hash (fullChunks BUFFER_CAPACITY l)).flatten,
        buffer := leftover BUFFER_CAPACITY l, finalized := false }).1 =
      leafDigests hash l := by
  have h := terrapinRun_eq hash l
  unfold terrapinRun at h
  rw [add_new] at h
  exact h

/-- Claim C5 (confirmed): for any sequence of `add` calls totalling `L`
bytes followed by `finalize`, the leaf attestation has byte length
`ceil(L / B) * 32`, which is 0 exactly when `L = 0`. -/
theorem c5_leaf_length_law (hash : List Nat → List Nat)
    (h32 : ∀ bs, (hash bs).length = 32) (ds : List (List Nat)) :
    ((Terrapin.finalize hash (feedAll hash Terrapin.new ds)).1.length =
      (((ds.map List.length).sum + BUFFER_CAPACITY - 1) / BUFFER_CAPACITY) * 32)
    ∧ ((ds.map List.length).sum = 0 →
       (Terrapin.finalize hash (feedAll hash Terrapin.new ds)).1.length = 0) := by
  have hsum : (ds.map List.length).sum = ds.flatten.length :=
    (List.length_flatten ds).symm
  have hmain : (Terrapin.finalize hash (feedAll hash Terrapin.new ds)).1.length
      = ((ds.flatten.length + BUFFER_CAPACITY - 1) / BUFFER_CAPACITY) * 32 := by
    rw [feedAll_new hash ds, finalize_state hash ds.flatten,
      leafDigests_length hash h32]
  constructor
  · rw [hmain, hsum]
  · intro h0
    rw [hsum] at h0
    rw [hmain, h0]
    decide

/-- Witness for C5 at a concrete feed. -/
theorem c5_leaf_length_law_witness :
    (∀ bs, (constHash32 bs).length = 32) ∧
    (((Terrapin.finalize constHash32
        (feedAll constHash32 Terrapin.new [[1, 2, 3]])).1.length =
      ((([[1, 2, 3]].map List.length).sum + BUFFER_CAPACITY - 1)
          / BUFFER_CAPACITY) * 32)
    ∧ (([[1, 2, 3]].map List.length).sum = 0 →
       (Terrapin.finalize constHash32
         (feedAll constHash32 Terrapin.new [[1, 2, 3]])).1.length = 0)) :=
  ⟨fun bs => List.length_replicate 32 0,
    c5_leaf_length_law constHash32 (fun bs => List.length_replicate 32 0)
      [[1, 2, 3]]⟩

/-! ### `ChunkReader` lemmas -/

lemma chunksOf_eq_nil (c : Nat) (l : List Nat) (h : l.length = 0) :
    chunksOf c l = [] := by
  rw [chunksOf]
  rw [dif_neg]
  omega

lemma chunksOf_cons (c : Nat) (l : List Nat) (hc : 0 < c)
    (hl : 0 < l.length) :
    chunksOf c l = l.take c :: chunksOf c (l.drop c) := by
  rw [chunksOf]
  rw [dif_pos ⟨hc, hl⟩]

/-- The chunks the `ChunkReader` yields are the full chunks plus the
non-empty remainder. -/
lemma chunksOf_eq (c : Nat) (hc : 0 < c) :
    ∀ n (l : List Nat), l.length = n →
      chunksOf c l = fullChunks c l ++
        (if l.length % c = 0 then [] else [leftover c l]) := by
  intro n
  induction n using Nat.strong_induction_on with
  | _ n ih =>
    intro l hl
    by_cases h0 : l.length = 0
    · rw [chunksOf_eq_nil c l h0, fullChunks_eq_nil c l (by omega), h0]
      simp
    · by_cases hlc : c ≤ l.length
      · rw [chunksOf_cons c l hc (by omega), fullChunks_cons c l hc hlc]
        rw [ih (l.drop c).length (by rw [List.length_drop]; omega) (l.drop c) rfl]
        rw [List.length_drop, leftover_drop c l hc hlc]
        have hmod : (l.length - c) % c = l.length % c :=
          (Nat.mod_eq_sub_mod hlc).symm
        rw [hmod, List.cons_append]
      · rw [chunksOf_cons c l hc (by omega)]
        rw [chunksOf_eq_nil c (l.drop c)
          (by rw [List.length_drop]; omega)]
        rw [fullChunks_eq_nil c l (by omega),
          List.take_of_length_le (by omega), leftover_of_lt c l (by omega)]
        rw [if_neg (by rw [Nat.mod_eq_of_lt (by omega)]; omega)]
        rfl

/-- `generate_for_reader` at chunk size `BUFFER_CAPACITY` produces exactly
the leaf digest sequence. -/
lemma generate_eq_leafDigests (hash : List Nat → List Nat) (data : List Nat) :
    generate_for_reader hash BUFFER_CAPACITY data =
      Except.ok (leafDigests hash data) := by
  unfold generate_for_reader new_writer
  rw [if_neg (by decide : ¬ (BUFFER_CAPACITY = 0))]
  rw [chunksOf_eq BUFFER_CAPACITY BUFFER_CAPACITY_pos data.length data rfl]
  unfold leafDigests
  rw [List.map_append, List.flatten_append]
  by_cases h : data.length % BUFFER_CAPACITY = 0
  · rw [if_pos h, if_pos h]
    simp
  · rw [if_neg h, if_neg h]
    simp

/-- Claim C4 (corrected): at chunk size `BUFFER_CAPACITY` — the Attestor's
block size — `generate_for_reader` returns digests byte-identical to a
`Terrapin` attestor fed the same bytes and finalized, concatenated in read
order. -/
theorem c4_generate_matches_attestor (hash : List Nat → List Nat)
    (data : List Nat) :
    generate_for_reader hash BUFFER_CAPACITY data =
      Except.ok (terrapinRun hash data) := by
  rw [generate_eq_leafDigests, terrapinRun_eq]

/-- Number of chunks the `ChunkReader` yields: `ceil(len / c)`. -/
lemma chunksOf_length (c : Nat) (hc : 0 < c) :
    ∀ n (l : List Nat), l.length = n →
      (chunksOf c l).length = (l.length + c - 1) / c := by
  intro n
  induction n using Nat.strong_induction_on with
  | _ n ih =>
    intro l hl
    by_cases h0 : l.length = 0
    · rw [chunksOf_eq_nil c l h0, h0]
      simp only [List.length_nil]
      rw [Nat.div_eq_of_lt (by omega)]
    · rw [chunksOf_cons c l hc (by omega), List.length_cons]
      rw [ih (l.drop c).length (by rw [List.length_drop]; omega) (l.drop c) rfl]
      rw [List.length_drop]
      by_cases hlc : c ≤ l.length
      · have harith : l.length + c - 1 = (l.length - c + c - 1) + c := by omega
        rw [harith, Nat.add_div_right _ hc]
      · have h1 : l.length - c = 0 := by omega
        rw [h1]
        rw [Nat.div_eq_of_lt (by omega : 0 + c - 1 < c)]
        rw [Nat.div_eq_of_lt_le (by omega : 1 * c ≤ l.length + c - 1)
          (by omega : l.length + c - 1 < (1 + 1) * c)]

/-- Counterexample for C4 as stated: with chunk size 1 on a 2-byte input the
generator hashes two 1-byte chunks (64 digest bytes) while the attestor
hashes one 2-byte block (32 digest bytes), so the outputs differ. -/
theorem c4_counterexample :
    ¬ (generate_for_reader constHash32 1 [0, 0] =
       Except.ok (terrapinRun constHash32 [0, 0])) := by
  intro h
  rw [show terrapinRun constHash32 [0, 0] = leafDigests constHash32 [0, 0]
    from terrapinRun_eq constHash32 [0, 0]] at h
  unfold generate_for_reader new_writer at h
  rw [if_neg (by decide : ¬ ((1:Nat) = 0))] at h
  injection h with h3
  have hlen1 : (List.map constHash32 (chunksOf 1 [0, 0])).flatten.length = 64 := by
    rw [flatten_map_length constHash32 (fun bs => List.length_replicate 32 0),
      chunksOf_length 1 (by decide) ([0, 0] : List Nat).length [0, 0] rfl]
    decide
  have hlen2 : (leafDigests constHash32 [0, 0]).length = 32 := by
    rw [leafDigests_length constHash32 (fun bs => List.length_replicate 32 0)]
    decide
  rw [h3, hlen2] at hlen1
  omega

/-- Claim C3 (code_bug): in Cat mode with `start = 10, end = 20` on a
30-byte file, the bytes written are `data[10..30)` — 20 bytes — not the
requested 10 bytes of `[10, 20)`: the code sets `end_byte = n` (no trailing
trim at `end`), and applies the `start % B` leading trim to every block. -/
theorem c3_cat_output_not_trimmed (hash : List Nat → List Nat)
    (data atts : List Nat) (hL : data.length = 30) :
    (validateRun hash data atts (some 10) (some 20) true).2 = data.drop 10 ∧
    (validateRun hash data atts (some 10) (some 20) true).2.length = 20 := by
  have h2 : (validateRun hash data atts (some 10) (some 20) true).2
      = data.drop 10 := by
    unfold validateRun
    simp only [alignedStartOf, alignedEndOf, startByteOf]
    have ha : (10:Nat) - 10 % BUFFER_CAPACITY = 0 := by decide
    have he : min ((20 + BUFFER_CAPACITY) - 20 % BUFFER_CAPACITY) data.length
        = 30 := by
      rw [hL]
      decide
    rw [ha, he, List.drop_zero]
    rw [readLoop]
    have hmin : min BUFFER_CAPACITY (30:Nat) = 30 := by decide
    simp only [hL, hmin]
    rw [dif_neg (by decide : ¬ ((30:Nat) = 0))]
    rw [if_neg (by decide : ¬ ((30:Nat) < 0))]
    have htk : data.take 30 = data := by
      rw [← hL]
      exact List.take_length data
    rw [htk, add_new hash data]
    dsimp only
    simp only [startByteOf]
    have hsb : (10:Nat) % BUFFER_CAPACITY = 10 := by decide
    rw [hsb]
    rw [if_neg (by decide : ¬ (True ∧ (30:Nat) < 10))]
    simp only [if_true, List.nil_append]
    split_ifs <;> rfl
  refine ⟨h2, ?_⟩
  rw [h2, List.length_drop, hL]

/-- Witness for C3 at a concrete 30-byte input. -/
theorem c3_cat_output_not_trimmed_witness :
    (List.range 30).length = 30 ∧
    ((validateRun constHash32 (List.range 30) [] (some 10) (some 20) true).2 =
       (List.range 30).drop 10 ∧
     (validateRun constHash32 (List.range 30) [] (some 10)
        (some 20) true).2.length = 20) :=
  ⟨List.length_range 30,
    c3_cat_output_not_trimmed constHash32 (List.range 30) []
      (List.length_range 30)⟩

/-! ### `Attest` level-compression lemmas -/

/-- `generate_for_reader` at block size never hits the chunk-size guard. -/
lemma generate_ok (hash : List Nat → List Nat) (cur : List Nat) :
    generate_for_reader hash BUFFER_CAPACITY cur =
      Except.ok ((List.map hash (chunksOf BUFFER_CAPACITY cur)).flatten) := by
  unfold generate_for_reader new_writer
  rw [if_neg (by decide : ¬ (BUFFER_CAPACITY = 0))]

/-- Byte length of one generated level: `32 * ceil(len / B)`. -/
lemma generate_len (hash : List Nat → List Nat)
    (h32 : ∀ bs, (hash bs).length = 32) (cur : List Nat) :
    ((List.map hash (chunksOf BUFFER_CAPACITY cur)).flatten).length =
      32 * ((cur.length + BUFFER_CAPACITY - 1) / BUFFER_CAPACITY) := by
  rw [flatten_map_length hash h32,
    chunksOf_length BUFFER_CAPACITY BUFFER_CAPACITY_pos cur.length cur rfl]

/-- On an empty stream every generated level is empty (length 0, never 32),
so the `Attest` loop never reaches its exit condition: no fuel suffices. -/
lemma attestLoop_empty (hash : List Nat → List Nat) :
    ∀ (k : Nat) (acc : List (List Nat)), attestLoop hash k [] acc = none := by
  intro k
  induction k with
  | zero => intro acc; rfl
  | succ f ih =>
    intro acc
    unfold attestLoop
    rw [generate_ok, chunksOf_eq_nil BUFFER_CAPACITY [] rfl]
    simp only [List.map_nil, List.flatten_nil]
    rw [if_neg (by decide : ¬ (([] : List Nat).length = 32))]
    exact ih _

/-- Rescaling the ceiling division from bytes to block counts:
one level of `32 * N` bytes has `ceil(N / 65536)` blocks, where
`65536 = BUFFER_CAPACITY / 32`. -/
lemma ceil_scale (N : Nat) :
    (32 * N + BUFFER_CAPACITY - 1) / BUFFER_CAPACITY = (N + 65536 - 1) / 65536 := by
  unfold BUFFER_CAPACITY
  omega

/-- The `Attest` loop starting from a level of `N ≥ 1` blocks terminates in
exactly `clog 65536 N + 1` rounds, pushing one level per round, and the
last level pushed (the root, first after the final reverse) is 32 bytes. -/
lemma attestLoop_spec (hash : List Nat → List Nat)
    (h32 : ∀ bs, (hash bs).length = 32) :
    ∀ N, 1 ≤ N → ∀ (cur : List Nat) (acc : List (List Nat)),
      (cur.length + BUFFER_CAPACITY - 1) / BUFFER_CAPACITY = N →
      0 < cur.length →
      ∃ (ls : List (List Nat)) (root : List Nat),
        attestLoop hash (Nat.clog 65536 N + 1) cur acc =
          some (List.reverse (acc ++ (ls ++ [root]))) ∧
        root.length = 32 ∧
        (ls ++ [root]).length = Nat.clog 65536 N + 1 := by
  intro N
  induction N using Nat.strong_induction_on with
  | _ N ih =>
    intro hN cur acc hceil hpos
    by_cases hN1 : N = 1
    · subst hN1
      rw [Nat.clog_one_right]
      unfold attestLoop
      rw [generate_ok]
      have hlen : ((List.map hash (chunksOf BUFFER_CAPACITY cur)).flatten).length
          = 32 := by
        rw [generate_len hash h32, hceil]
      dsimp only
      rw [if_pos hlen]
      exact ⟨[], (List.map hash (chunksOf BUFFER_CAPACITY cur)).flatten,
        by rw [List.nil_append], hlen, by simp⟩
    · have hN2 : 2 ≤ N := by omega
      have hclog : Nat.clog 65536 N =
          Nat.clog 65536 ((N + 65536 - 1) / 65536) + 1 :=
        Nat.clog_of_two_le (by norm_num) hN2
      rw [hclog]
      unfold attestLoop
      rw [generate_ok]
      have hattlen : ((List.map hash (chunksOf BUFFER_CAPACITY cur)).flatten).length
          = 32 * N := by
        rw [generate_len hash h32, hceil]
      have hne : ¬ (((List.map hash (chunksOf BUFFER_CAPACITY cur)).flatten).length
          = 32) := by
        rw [hattlen]
        omega
      dsimp only
      rw [if_neg hne]
      have hceil2 : (((List.map hash (chunksOf BUFFER_CAPACITY cur)).flatten).length
          + BUFFER_CAPACITY - 1) / BUFFER_CAPACITY = (N + 65536 - 1) / 65536 := by
        rw [hattlen]
        exact ceil_scale N
      have hNlt : (N + 65536 - 1) / 65536 < N := by omega
      have hNpos : 1 ≤ (N + 65536 - 1) / 65536 := by omega
      have hattpos : 0 <
          ((List.map hash (chunksOf BUFFER_CAPACITY cur)).flatten).length := by
        rw [hattlen]
        omega
      obtain ⟨ls2, root, hrun, hroot, hcount⟩ := ih _ hNlt hNpos
        ((List.map hash (chunksOf BUFFER_CAPACITY cur)).flatten)
        (acc ++ [(List.map hash (chunksOf BUFFER_CAPACITY cur)).flatten])
        hceil2 hattpos
      refine ⟨(List.map hash (chunksOf BUFFER_CAPACITY cur)).flatten :: ls2,
        root, ?_, hroot, ?_⟩
      · rw [hrun, List.append_assoc]
        rw [List.cons_append, List.cons_append, List.nil_append]
      · rw [List.cons_append, List.length_cons, hcount]

/-- Claim C6 (corrected, nonempty case): for every non-empty input the
level loop terminates with `clog 65536 N + 1` levels, where
`N = ceil(L / B)` is the leaf block count and `65536 = B / 32`, the first
(root) level being exactly 32 bytes. -/
theorem c6_attest_levels (hash : List Nat → List Nat)
    (h32 : ∀ bs, (hash bs).length = 32) (data : List Nat)
    (hpos : 0 < data.length) :
    ∃ (levels : List (List Nat)) (root : List Nat) (rest : List (List Nat)),
      attestLoop hash
        (Nat.clog 65536 ((data.length + BUFFER_CAPACITY - 1) / BUFFER_CAPACITY)
          + 1) data [] = some levels ∧
      levels = root :: rest ∧ root.length = 32 ∧
      levels.length = Nat.clog 65536
        ((data.length + BUFFER_CAPACITY - 1) / BUFFER_CAPACITY) + 1 := by
  have hN : 1 ≤ (data.length + BUFFER_CAPACITY - 1) / BUFFER_CAPACITY := by
    rw [Nat.one_le_div_iff BUFFER_CAPACITY_pos]
    have := BUFFER_CAPACITY_pos
    omega
  obtain ⟨ls, root, hrun, hroot, hcount⟩ :=
    attestLoop_spec hash h32 _ hN data [] rfl hpos
  refine ⟨List.reverse ([] ++ (ls ++ [root])), root, List.reverse ls,
    hrun, ?_, hroot, ?_⟩
  · rw [List.nil_append, List.reverse_append]
    rfl
  · rw [List.nil_append, List.length_reverse, hcount]

/-- Counterexample for C6 as stated: on the empty stream the loop never
terminates — every level is empty, so the 32-byte exit condition is never
met for any number of rounds. -/
theorem c6_counterexample :
    ¬ (∃ (fuel : Nat) (levels : List (List Nat)),
        attestLoop constHash32 fuel [] [] = some levels) := by
  rintro ⟨fuel, levels, h⟩
  rw [attestLoop_empty constHash32 fuel []] at h
  exact Option.noConfusion h

/-- Witness for C6 at a concrete one-byte input. -/
theorem c6_attest_levels_witness :
    (∀ bs, (constHash32 bs).length = 32) ∧ 0 < ([5] : List Nat).length ∧
    ∃ (levels : List (List Nat)) (root : List Nat) (rest : List (List Nat)),
      attestLoop constHash32
        (Nat.clog 65536 ((([5] : List Nat).length + BUFFER_CAPACITY - 1)
          / BUFFER_CAPACITY) + 1) [5] [] = some levels ∧
      levels = root :: rest ∧ root.length = 32 ∧
      levels.length = Nat.clog 65536
        ((([5] : List Nat).length + BUFFER_CAPACITY - 1) / BUFFER_CAPACITY)
        + 1 :=
  ⟨fun bs => List.length_replicate 32 0, by decide,
    c6_attest_levels constHash32 (fun bs => List.length_replicate 32 0) [5]
      (by decide)⟩
